import Mathlib

/-!
Verification of the client-side sales aggregation core of the monthly report tab:
the `productsSold` and `customerPurchases` computations that group raw sale
records into per-product and per-customer summaries.

Embedding conventions:
* fields that may be absent on the wire (TypeScript `?` fields, or required
  fields that malformed input may omit and the code defends against with `||`)
  are `Option`; JS numbers are modelled as `ℚ`;
* `a || b` on strings is modelled by `jsOrStr` / `jsOrKey` (falsy = absent or
  empty string), and `n || 0` on numbers by `jsNum` (absent ↦ 0, and `0 || 0 = 0`);
* a JS `Map` is an insertion-ordered association list: `set` on a present key
  updates the entry in place, on a new key appends at the end — this matches
  both `Map.prototype.set` and the in-place mutation of the stored object;
* `Array.prototype.sort` is stable (ES2019), so the final sort is embedded as
  insertion sort (the unique stable sort) by the same comparator,
  descending by `revenue` / `totalSpent`.
-/

/-- One sale line item (TypeScript interface `SaleItem`). -/
structure SaleItem where
  product_name : Option String
  product_sku : Option String
  quantity : Option ℚ
  unit_price : Option ℚ
  total_price : Option ℚ
  category : Option String
  deriving DecidableEq

/-- One sale record (TypeScript interface `Sale`). -/
structure Sale where
  id : ℚ
  order_number : Option String
  customer_name : Option String
  customer_phone : Option String
  customer_type : Option String
  items : Option (List SaleItem)
  total_amount : Option ℚ
  payment_method : Option String
  status : Option String
  created_at : String
  deriving DecidableEq

/-- Per-product summary (TypeScript interface `ProductSold`). -/
structure ProductSold where
  name : String
  sku : String
  category : String
  quantity : ℚ
  revenue : ℚ
  avgPrice : ℚ
  deriving DecidableEq

/-- Per-customer summary (TypeScript interface `CustomerPurchase`). -/
structure CustomerPurchase where
  name : String
  phone : String
  type : String
  orders : Nat
  totalSpent : ℚ
  products : List (Option String)
  deriving DecidableEq

/-- JS truthiness of a possibly-absent string: truthy iff present and non-empty. -/
def strTruthy : Option String → Bool
  | none => false
  | some s => s != ""

/-- JS `o || d` where `o` is a possibly-absent string and `d` a string default. -/
def jsOrStr : Option String → String → String
  | none, d => d
  | some s, d => if s == "" then d else s

/-- JS `a || b` where both operands are possibly-absent strings: the raw value of
`b` (which may itself be absent or empty) when `a` is falsy. -/
def jsOrKey (a b : Option String) : Option String := if strTruthy a then a else b

/-- JS `n || 0` on a possibly-absent number (`0 || 0 = 0`, so absent-to-0 covers it). -/
def jsNum (o : Option ℚ) : ℚ := o.getD 0

/-- `Map.prototype.get` on an insertion-ordered association list. -/
def mapGet {κ α : Type} [DecidableEq κ] : List (κ × α) → κ → Option α
  | [], _ => none
  | e :: rest, k => if e.1 = k then some e.2 else mapGet rest k

/-- `Map.prototype.set`: update in place when the key is present, append otherwise. -/
def mapSet {κ α : Type} [DecidableEq κ] : List (κ × α) → κ → α → List (κ × α)
  | [], k, v => [(k, v)]
  | e :: rest, k, v => if e.1 = k then (k, v) :: rest else e :: mapSet rest k v

/-- One step of the get-merge-or-insert pattern shared by both aggregators:
look the key of `x` up; merge into the existing accumulator when present,
insert a fresh one otherwise. -/
def groupStep {σ κ V : Type} [DecidableEq κ] (key : σ → κ) (init : σ → V)
    (merge : V → σ → V) (m : List (κ × V)) (x : σ) : List (κ × V) :=
  match mapGet m (key x) with
  | some ex => mapSet m (key x) (merge ex x)
  | none => mapSet m (key x) (init x)

/-- `sale.items || []`. -/
def itemsOf (s : Sale) : List SaleItem := s.items.getD []

/-- `const key = item.product_sku || item.product_name` — the raw JS value used
as the `Map` key (absent stays absent, empty string stays empty string). -/
def productKey (it : SaleItem) : Option String := jsOrKey it.product_sku it.product_name

/-- The fresh accumulator stored on first encounter of a product key
(the `else` branch of `productsSold`). -/
def initProduct (it : SaleItem) : ProductSold :=
  { name := jsOrStr it.product_name "Unknown Product"
    sku := jsOrStr it.product_sku "-"
    category := jsOrStr it.category "Uncategorized"
    quantity := jsNum it.quantity
    revenue := jsNum it.total_price
    avgPrice := jsNum it.unit_price }

/-- The in-place merge on an existing accumulator (the `if (existing)` branch):
`quantity` and `revenue` are incremented first, then `avgPrice` is recomputed
from the updated totals. -/
def mergeProduct (p : ProductSold) (it : SaleItem) : ProductSold :=
  let q := p.quantity + jsNum it.quantity
  let r := p.revenue + jsNum it.total_price
  { p with quantity := q, revenue := r, avgPrice := r / q }

/-- Processing one line item into the product map. -/
def prodStep : List (Option String × ProductSold) → SaleItem →
    List (Option String × ProductSold) :=
  groupStep productKey initProduct mergeProduct

/-- The product map after the nested `forEach` loops of `productsSold`. -/
def prodMap (sales : List Sale) : List (Option String × ProductSold) :=
  sales.foldl (fun m sale => (itemsOf sale).foldl prodStep m) []

/-- The comparator `(a, b) => b.revenue - a.revenue` as a relation: descending
by revenue. -/
def revGE (a b : ProductSold) : Prop := b.revenue ≤ a.revenue

instance : DecidableRel revGE := fun a b => inferInstanceAs (Decidable (b.revenue ≤ a.revenue))

/-- `productsSold`: the map's values in insertion order, stably sorted
descending by revenue. -/
def productsSold (sales : List Sale) : List ProductSold :=
  List.insertionSort revGE ((prodMap sales).map Prod.snd)

/-- `const key = sale.customer_name || 'Walk-in Customer'` — always a string. -/
def custKey (s : Sale) : String := jsOrStr s.customer_name "Walk-in Customer"

/-- `(sale.items || []).map(item => item.product_name)` — the raw name values. -/
def namesOf (s : Sale) : List (Option String) := (itemsOf s).map (fun it => it.product_name)

/-- `[...new Set(l)]`: deduplication keeping the first occurrence of each element. -/
def dedupFirst {α : Type} [DecidableEq α] : List α → List α
  | [] => []
  | x :: xs => x :: dedupFirst (xs.filter (fun y => decide (y ≠ x)))
termination_by l => l.length
decreasing_by
  simp only [List.length_cons]
  exact Nat.lt_succ_of_le (List.length_filter_le _ _)

/-- The fresh accumulator stored on first encounter of a customer key
(the `else` branch of `customerPurchases`); note `products` stores the raw,
not deduplicated, list of this record's product names. -/
def initCustomer (s : Sale) : CustomerPurchase :=
  { name := custKey s
    phone := jsOrStr s.customer_phone "-"
    type := jsOrStr s.customer_type "Individual"
    orders := 1
    totalSpent := jsNum s.total_amount
    products := namesOf s }

/-- The in-place merge on an existing customer accumulator:
`products = [...new Set([...existing.products, ...productNames])]`. -/
def mergeCustomer (c : CustomerPurchase) (s : Sale) : CustomerPurchase :=
  { c with
    orders := c.orders + 1
    totalSpent := c.totalSpent + jsNum s.total_amount
    products := dedupFirst (c.products ++ namesOf s) }

/-- Processing one sale record into the customer map. -/
def custStep : List (String × CustomerPurchase) → Sale → List (String × CustomerPurchase) :=
  groupStep custKey initCustomer mergeCustomer

/-- The customer map after the `forEach` loop of `customerPurchases`. -/
def custMap (sales : List Sale) : List (String × CustomerPurchase) :=
  sales.foldl custStep []

/-- The comparator `(a, b) => b.totalSpent - a.totalSpent` as a relation. -/
def spentGE (a b : CustomerPurchase) : Prop := b.totalSpent ≤ a.totalSpent

instance : DecidableRel spentGE := fun a b => inferInstanceAs (Decidable (b.totalSpent ≤ a.totalSpent))

/-- `customerPurchases`: the map's values in insertion order, stably sorted
descending by total spent. -/
def customerPurchases (sales : List Sale) : List CustomerPurchase :=
  List.insertionSort spentGE ((custMap sales).map Prod.snd)

/-- The line items of all records, flattened in encounter order. -/
def allItems : List Sale → List SaleItem
  | [] => []
  | s :: rest => itemsOf s ++ allItems rest

/-- Sum of `f` over a list. -/
def sumBy {α β : Type} [AddCommMonoid β] (f : α → β) (l : List α) : β := (l.map f).sum

/-- The accumulator a get-merge-or-insert fold ends up with for one key, as a
function of the accumulator already stored under that key and the elements
keyed to it. -/
def groupOutcome {σ V : Type} (init : σ → V) (merge : V → σ → V)
    (prev : Option V) (occ : List σ) : Option V :=
  match prev, occ with
  | some ex, occ => some (occ.foldl merge ex)
  | none, [] => none
  | none, x :: occ => some (occ.foldl merge (init x))

/-- The set of product-name values occurring in a list of sale records. -/
def namesSet : List Sale → Finset (Option String)
  | [] => ∅
  | s :: rest => (namesOf s).toFinset ∪ namesSet rest

instance : IsTotal ProductSold revGE :=
  ⟨fun a b => le_total b.revenue a.revenue⟩

instance : IsTrans ProductSold revGE :=
  ⟨fun _ _ _ hab hbc => le_trans hbc hab⟩

instance : IsTotal CustomerPurchase spentGE :=
  ⟨fun a b => le_total b.totalSpent a.totalSpent⟩

instance : IsTrans CustomerPurchase spentGE :=
  ⟨fun _ _ _ hab hbc => le_trans hbc hab⟩

/-- A line item with every possibly-missing numeric field replaced by its
`|| 0` default. -/
def fillItem (it : SaleItem) : SaleItem :=
  { it with
    quantity := some (jsNum it.quantity)
    unit_price := some (jsNum it.unit_price)
    total_price := some (jsNum it.total_price) }

/-- A sale with `total_amount` replaced by its `|| 0` default, a missing `items`
replaced by `[]`, and every item zero-filled. -/
def fillSale (s : Sale) : Sale :=
  { s with
    items := some ((itemsOf s).map fillItem)
    total_amount := some (jsNum s.total_amount) }

/-- The keys of an association-list map, in insertion order. -/
def keysOf {κ V : Type} (m : List (κ × V)) : List κ := m.map Prod.fst

/-! Concrete inputs used by the counterexamples and witnesses below. -/

/-- A line item with the given identity and numeric fields (no category). -/
def mkItem (name sku : Option String) (q u t : Option ℚ) : SaleItem :=
  { product_name := name, product_sku := sku, quantity := q, unit_price := u,
    total_price := t, category := none }

/-- A sale with the given customer name, phone, items and total. -/
def mkSale (name phone : Option String) (its : List SaleItem) (amt : Option ℚ) : Sale :=
  { id := 0, order_number := none, customer_name := name, customer_phone := phone,
    customer_type := none, items := some its, total_amount := amt,
    payment_method := none, status := none, created_at := "2024-01-01" }

def itemA : SaleItem := mkItem (some "Alpha") (some "A1") (some 2) (some 5) (some 100)

def itemB : SaleItem := mkItem (some "Alpha") (some "A1") (some 3) (some 50) (some 150)

def saleA : Sale := mkSale (some "Ali") none [itemA] (some 100)

def saleAB : Sale := mkSale (some "Ali") none [itemA, itemB] (some 250)

/-- The summary the code builds for sku "A1" from `saleAB`. -/
def prodAB : ProductSold :=
  { name := "Alpha"
    sku := "A1"
    category := "Uncategorized"
    quantity := 5
    revenue := 250
    avgPrice := 50 }

def itemNoId : SaleItem := mkItem none none (some 1) (some 5) (some 5)

def itemUP : SaleItem := mkItem (some "Unknown Product") none (some 1) (some 7) (some 7)

def saleC3 : Sale := mkSale (some "Ali") none [itemNoId, itemUP] (some 12)

def saleNoId : Sale := mkSale (some "Ali") none [itemNoId] (some 5)

/-- The merge key as the spec words it (stated from the spec for comparison
with the code's `productKey`): the SKU when present and non-empty, otherwise
the product name, otherwise the label "Unknown Product". -/
def specMergeKey (it : SaleItem) : String :=
  if strTruthy it.product_sku then it.product_sku.getD ""
  else if strTruthy it.product_name then it.product_name.getD ""
  else "Unknown Product"

/-- The summary the code builds for the absent key from `saleNoId`. -/
def prodNoId : ProductSold :=
  { name := "Unknown Product"
    sku := "-"
    category := "Uncategorized"
    quantity := 1
    revenue := 5
    avgPrice := 5 }

def itemX : SaleItem := mkItem (some "X") (some "K") (some 1) (some 10) (some 10)

def itemY : SaleItem := mkItem (some "Y") (some "K") (some 1) (some 10) (some 10)

def saleX : Sale := mkSale (some "Ali") none [itemX] (some 10)

def saleY : Sale := mkSale (some "Ali") none [itemY] (some 10)

def saleP1 : Sale := mkSale (some "Bea") (some "111") [] (some 10)

def saleP2 : Sale := mkSale (some "Bea") (some "222") [] (some 5)

def itemP : SaleItem := mkItem (some "P") none (some 1) (some 5) (some 5)

def saleRep : Sale := mkSale (some "Ali") none [itemP, itemP] (some 10)

/-! ### Association-list map lemmas -/

section MapLemmas

variable {κ α : Type} [DecidableEq κ]

theorem mapGet_set_self (m : List (κ × α)) (k : κ) (v : α) :
    mapGet (mapSet m k v) k = some v := by
  induction m with
  | nil => simp [mapGet, mapSet]
  | cons e rest ih =>
    by_cases h : e.1 = k
    · simp [mapGet, mapSet, h]
    · simp [mapGet, mapSet, h, ih]

theorem mapGet_set_ne (m : List (κ × α)) (k k' : κ) (v : α) (h : k' ≠ k) :
    mapGet (mapSet m k v) k' = mapGet m k' := by
  have h' : ¬k = k' := fun he => h he.symm
  induction m with
  | nil => simp [mapGet, mapSet, h']
  | cons e rest ih =>
    by_cases he : e.1 = k
    · subst he
      simp [mapGet, mapSet, h']
    · by_cases he' : e.1 = k'
      · simp [mapGet, mapSet, he, he', h]
      · simp [mapGet, mapSet, he, he', ih]

theorem mapSet_absent (m : List (κ × α)) (k : κ) (v : α) (h : mapGet m k = none) :
    mapSet m k v = m ++ [(k, v)] := by
  induction m with
  | nil => simp [mapSet]
  | cons e rest ih =>
    by_cases he : e.1 = k
    · simp [mapGet, he] at h
    · simp only [mapGet, he, if_false] at h
      simp [mapSet, he, ih h]

theorem keys_mapSet_present (m : List (κ × α)) (k : κ) (v : α)
    (h : mapGet m k ≠ none) : (mapSet m k v).map Prod.fst = m.map Prod.fst := by
  induction m with
  | nil => simp [mapGet] at h
  | cons e rest ih =>
    by_cases he : e.1 = k
    · simp [mapSet, he]
    · simp only [mapGet, he, if_false] at h
      simp [mapSet, he, ih h]

theorem mapGet_eq_none_iff (m : List (κ × α)) (k : κ) :
    mapGet m k = none ↔ k ∉ m.map Prod.fst := by
  induction m with
  | nil => simp [mapGet]
  | cons e rest ih =>
    by_cases he : e.1 = k
    · simp [mapGet, he]
    · have : ¬k = e.1 := fun hke => he hke.symm
      simp [mapGet, he, ih, this]

end MapLemmas

/-! ### The get-merge-or-insert fold, characterised per key -/

theorem mapGet_groupStep_ne {σ κ V : Type} [DecidableEq κ] (key : σ → κ) (init : σ → V)
    (merge : V → σ → V) (m : List (κ × V)) (x : σ) (k : κ) (h : key x ≠ k) :
    mapGet (groupStep key init merge m x) k = mapGet m k := by
  unfold groupStep
  cases mapGet m (key x) <;> simp [mapGet_set_ne _ _ _ _ (fun he => h he.symm)]

theorem mapGet_groupFold {σ κ V : Type} [DecidableEq κ] (key : σ → κ) (init : σ → V)
    (merge : V → σ → V) (l : List σ) :
    ∀ (m : List (κ × V)) (k : κ),
      mapGet (l.foldl (groupStep key init merge) m) k =
        groupOutcome init merge (mapGet m k) (l.filter (fun x => decide (key x = k))) := by
  induction l with
  | nil =>
    intro m k
    cases h : mapGet m k <;> simp [List.filter, h, groupOutcome]
  | cons x rest ih =>
    intro m k
    by_cases hk : key x = k
    · cases h : mapGet m k with
      | some ex =>
        have hstep : (x :: rest).foldl (groupStep key init merge) m
            = rest.foldl (groupStep key init merge) (mapSet m k (merge ex x)) := by
          simp [List.foldl_cons, groupStep, hk, h]
        rw [hstep, ih, mapGet_set_self]
        simp [List.filter_cons, hk, groupOutcome]
      | none =>
        have hstep : (x :: rest).foldl (groupStep key init merge) m
            = rest.foldl (groupStep key init merge) (mapSet m k (init x)) := by
          simp [List.foldl_cons, groupStep, hk, h]
        rw [hstep, ih, mapGet_set_self]
        simp [List.filter_cons, hk, groupOutcome]
    · have hstep : (x :: rest).foldl (groupStep key init merge) m
          = rest.foldl (groupStep key init merge) (groupStep key init merge m x) := by
        simp [List.foldl_cons]
      rw [hstep, ih, mapGet_groupStep_ne _ _ _ _ _ _ hk]
      simp [List.filter_cons, hk]

/-! ### Nested-to-flat fold equivalence -/

theorem prodMap_foldl_aux (sales : List Sale) :
    ∀ m, sales.foldl (fun m sale => (itemsOf sale).foldl prodStep m) m
      = (allItems sales).foldl prodStep m := by
  induction sales with
  | nil => intro m; simp [allItems]
  | cons s rest ih => intro m; simp [allItems, List.foldl_append, ih]

theorem prodMap_eq_foldl_allItems (sales : List Sale) :
    prodMap sales = (allItems sales).foldl prodStep [] :=
  prodMap_foldl_aux sales []

/-! ### Totals and descriptive fields of merge folds -/

theorem foldl_mergeProduct_quantity (l : List SaleItem) :
    ∀ p : ProductSold, (l.foldl mergeProduct p).quantity
      = p.quantity + sumBy (fun it => jsNum it.quantity) l := by
  induction l with
  | nil => intro p; simp [sumBy]
  | cons it rest ih =>
    intro p
    simp [List.foldl_cons, ih, mergeProduct, sumBy, add_assoc]

theorem foldl_mergeProduct_revenue (l : List SaleItem) :
    ∀ p : ProductSold, (l.foldl mergeProduct p).revenue
      = p.revenue + sumBy (fun it => jsNum it.total_price) l := by
  induction l with
  | nil => intro p; simp [sumBy]
  | cons it rest ih =>
    intro p
    simp [List.foldl_cons, ih, mergeProduct, sumBy, add_assoc]

theorem foldl_mergeProduct_descriptive (l : List SaleItem) :
    ∀ p : ProductSold, (l.foldl mergeProduct p).name = p.name
      ∧ (l.foldl mergeProduct p).sku = p.sku
      ∧ (l.foldl mergeProduct p).category = p.category := by
  induction l with
  | nil => intro p; exact ⟨rfl, rfl, rfl⟩
  | cons it rest ih =>
    intro p
    simpa [List.foldl_cons, mergeProduct] using ih (mergeProduct p it)

theorem foldl_mergeProduct_avgPrice :
    ∀ (l : List SaleItem), l ≠ [] → ∀ p : ProductSold,
      (l.foldl mergeProduct p).avgPrice
        = (l.foldl mergeProduct p).revenue / (l.foldl mergeProduct p).quantity := by
  intro l
  induction l with
  | nil => intro h; exact absurd rfl h
  | cons it rest ih =>
    intro _ p
    by_cases hrest : rest = []
    · subst hrest
      simp [mergeProduct]
    · simpa [List.foldl_cons] using ih hrest (mergeProduct p it)

theorem foldl_mergeCustomer_orders (l : List Sale) :
    ∀ c : CustomerPurchase, (l.foldl mergeCustomer c).orders = c.orders + l.length := by
  induction l with
  | nil => intro c; simp
  | cons s rest ih =>
    intro c
    simp [List.foldl_cons, ih, mergeCustomer]
    omega

theorem foldl_mergeCustomer_totalSpent (l : List Sale) :
    ∀ c : CustomerPurchase, (l.foldl mergeCustomer c).totalSpent
      = c.totalSpent + sumBy (fun s => jsNum s.total_amount) l := by
  induction l with
  | nil => intro c; simp [sumBy]
  | cons s rest ih =>
    intro c
    simp [List.foldl_cons, ih, mergeCustomer, sumBy, add_assoc]

theorem foldl_mergeCustomer_descriptive (l : List Sale) :
    ∀ c : CustomerPurchase, (l.foldl mergeCustomer c).name = c.name
      ∧ (l.foldl mergeCustomer c).phone = c.phone
      ∧ (l.foldl mergeCustomer c).type = c.type := by
  induction l with
  | nil => intro c; exact ⟨rfl, rfl, rfl⟩
  | cons s rest ih =>
    intro c
    simpa [List.foldl_cons, mergeCustomer] using ih (mergeCustomer c s)

/-! ### First-occurrence deduplication -/

theorem mem_dedupFirst {α : Type} [DecidableEq α] :
    ∀ (n : ℕ) (l : List α), l.length ≤ n → ∀ a, (a ∈ dedupFirst l ↔ a ∈ l) := by
  intro n
  induction n with
  | zero =>
    intro l hl a
    have : l = [] := List.eq_nil_of_length_eq_zero (Nat.le_zero.mp hl)
    subst this
    simp [dedupFirst]
  | succ n ih =>
    intro l hl a
    cases l with
    | nil => simp [dedupFirst]
    | cons x xs =>
      have hlen : (xs.filter (fun y => decide (y ≠ x))).length ≤ n :=
        le_trans (List.length_filter_le _ _) (Nat.succ_le_succ_iff.mp hl)
      rw [dedupFirst]
      constructor
      · intro h
        rcases List.mem_cons.mp h with h | h
        · exact List.mem_cons.mpr (Or.inl h)
        · have h2 := (ih _ hlen a).mp h
          exact List.mem_cons.mpr (Or.inr (List.mem_filter.mp h2).1)
      · intro h
        rcases List.mem_cons.mp h with h | h
        · exact List.mem_cons.mpr (Or.inl h)
        · by_cases hax : a = x
          · exact List.mem_cons.mpr (Or.inl hax)
          · refine List.mem_cons.mpr (Or.inr ((ih _ hlen a).mpr ?_))
            exact List.mem_filter.mpr ⟨h, by simpa using hax⟩

theorem dedupFirst_toFinset {α : Type} [DecidableEq α] (l : List α) :
    (dedupFirst l).toFinset = l.toFinset := by
  ext a
  simp [List.mem_toFinset, mem_dedupFirst l.length l le_rfl]

theorem foldl_mergeCustomer_products (l : List Sale) :
    ∀ c : CustomerPurchase, ((l.foldl mergeCustomer c).products).toFinset
      = c.products.toFinset ∪ namesSet l := by
  induction l with
  | nil => intro c; simp [namesSet]
  | cons s rest ih =>
    intro c
    simp [List.foldl_cons, ih, namesSet, mergeCustomer, dedupFirst_toFinset,
      Finset.union_assoc]

/-! ### Sums over the aggregation -/

theorem sumBy_nil {α β : Type} [AddCommMonoid β] (f : α → β) : sumBy f [] = 0 := rfl

theorem sumBy_cons {α β : Type} [AddCommMonoid β] (f : α → β) (a : α) (l : List α) :
    sumBy f (a :: l) = f a + sumBy f l := by simp [sumBy]

theorem sumBy_append {α β : Type} [AddCommMonoid β] (f : α → β) (l₁ l₂ : List α) :
    sumBy f (l₁ ++ l₂) = sumBy f l₁ + sumBy f l₂ := by simp [sumBy]

theorem sumBy_one {α : Type} (l : List α) : sumBy (fun _ => (1 : ℕ)) l = l.length := by
  induction l with
  | nil => rfl
  | cons a l ih => simp [sumBy_cons, ih]; omega

theorem sumBy_mapSet_present {κ V β : Type} [DecidableEq κ] [AddCommMonoid β] (f : V → β) :
    ∀ (m : List (κ × V)) (k : κ) (v ex : V), mapGet m k = some ex →
      sumBy f ((mapSet m k v).map Prod.snd) + f ex
        = sumBy f (m.map Prod.snd) + f v := by
  intro m
  induction m with
  | nil => intro k v ex h; simp [mapGet] at h
  | cons e rest ih =>
    intro k v ex h
    by_cases he : e.1 = k
    · simp only [mapGet, he, if_true, Option.some.injEq] at h
      subst h
      simp only [mapSet, he, if_true, List.map_cons, sumBy_cons]
      abel
    · simp only [mapGet, he, if_false] at h
      simp only [mapSet, he, if_false, List.map_cons, sumBy_cons]
      rw [add_assoc, ih k v ex h, add_assoc]

theorem sumBy_groupStep {σ κ V β : Type} [DecidableEq κ] [AddCancelCommMonoid β]
    (key : σ → κ) (init : σ → V) (merge : V → σ → V) (f : V → β) (g : σ → β)
    (hinit : ∀ x, f (init x) = g x) (hmerge : ∀ v x, f (merge v x) = f v + g x)
    (m : List (κ × V)) (x : σ) :
    sumBy f ((groupStep key init merge m x).map Prod.snd)
      = sumBy f (m.map Prod.snd) + g x := by
  unfold groupStep
  cases h : mapGet m (key x) with
  | some ex =>
    have h2 := sumBy_mapSet_present f m (key x) (merge ex x) ex h
    rw [hmerge] at h2
    have h3 : sumBy f ((mapSet m (key x) (merge ex x)).map Prod.snd) + f ex
        = (sumBy f (m.map Prod.snd) + g x) + f ex := by
      rw [h2]; abel
    exact add_right_cancel h3
  | none =>
    rw [mapSet_absent m _ _ h]
    simp [List.map_append, sumBy_append, sumBy_cons, sumBy_nil, hinit]

theorem sumBy_groupFold {σ κ V β : Type} [DecidableEq κ] [AddCancelCommMonoid β]
    (key : σ → κ) (init : σ → V) (merge : V → σ → V) (f : V → β) (g : σ → β)
    (hinit : ∀ x, f (init x) = g x) (hmerge : ∀ v x, f (merge v x) = f v + g x)
    (l : List σ) :
    ∀ m : List (κ × V),
      sumBy f ((l.foldl (groupStep key init merge) m).map Prod.snd)
        = sumBy f (m.map Prod.snd) + sumBy g l := by
  induction l with
  | nil => intro m; simp [sumBy_nil]
  | cons x rest ih =>
    intro m
    rw [List.foldl_cons, ih, sumBy_groupStep key init merge f g hinit hmerge, sumBy_cons]
    abel

theorem sumBy_insertionSort {α β : Type} [AddCommMonoid β] (r : α → α → Prop)
    [DecidableRel r] (f : α → β) (l : List α) :
    sumBy f (List.insertionSort r l) = sumBy f l := by
  unfold sumBy
  exact ((List.perm_insertionSort r l).map f).sum_eq

/-- C1: the aggregation is a lossless partition. -/
theorem aggregation_lossless (s : List Sale) :
    sumBy (fun p => p.quantity) (productsSold s) = sumBy (fun it => jsNum it.quantity) (allItems s)
    ∧ sumBy (fun p => p.revenue) (productsSold s)
        = sumBy (fun it => jsNum it.total_price) (allItems s)
    ∧ sumBy (fun c => c.orders) (customerPurchases s) = s.length
    ∧ sumBy (fun c => c.totalSpent) (customerPurchases s)
        = sumBy (fun r => jsNum r.total_amount) s := by
  refine ⟨?_, ?_, ?_, ?_⟩
  · rw [productsSold, sumBy_insertionSort, prodMap_eq_foldl_allItems]
    have h := sumBy_groupFold productKey initProduct mergeProduct
      (fun p => p.quantity) (fun it => jsNum it.quantity)
      (fun _ => rfl) (fun _ _ => rfl) (allItems s) []
    simpa [prodStep, sumBy_nil] using h
  · rw [productsSold, sumBy_insertionSort, prodMap_eq_foldl_allItems]
    have h := sumBy_groupFold productKey initProduct mergeProduct
      (fun p => p.revenue) (fun it => jsNum it.total_price)
      (fun _ => rfl) (fun _ _ => rfl) (allItems s) []
    simpa [prodStep, sumBy_nil] using h
  · rw [customerPurchases, sumBy_insertionSort, custMap]
    have h := sumBy_groupFold custKey initCustomer mergeCustomer
      (fun c => c.orders) (fun _ => (1 : ℕ))
      (fun _ => rfl) (fun _ _ => rfl) s []
    simpa [custStep, sumBy_nil, sumBy_one] using h
  · rw [customerPurchases, sumBy_insertionSort, custMap]
    have h := sumBy_groupFold custKey initCustomer mergeCustomer
      (fun c => c.totalSpent) (fun r => jsNum r.total_amount)
      (fun _ => rfl) (fun _ _ => rfl) s []
    simpa [custStep, sumBy_nil] using h

/-! ### Map keys are in first-encounter order -/

theorem keysOf_groupStep {σ κ V : Type} [DecidableEq κ] (key : σ → κ) (init : σ → V)
    (merge : V → σ → V) (m : List (κ × V)) (x : σ) :
    keysOf (groupStep key init merge m x)
      = if key x ∈ keysOf m then keysOf m else keysOf m ++ [key x] := by
  unfold groupStep
  cases h : mapGet m (key x) with
  | some ex =>
    have hmem : key x ∈ keysOf m := by
      by_contra hc
      unfold keysOf at hc
      rw [← mapGet_eq_none_iff] at hc
      rw [h] at hc
      exact Option.noConfusion hc
    rw [if_pos hmem]
    exact keys_mapSet_present m _ _ (by rw [h]; exact fun hc => Option.noConfusion hc)
  | none =>
    have hmem : key x ∉ keysOf m := (mapGet_eq_none_iff m (key x)).mp h
    rw [if_neg hmem, mapSet_absent m _ _ h]
    simp [keysOf]

theorem keys_mono_groupStep {σ κ V : Type} [DecidableEq κ] (key : σ → κ) (init : σ → V)
    (merge : V → σ → V) (m : List (κ × V)) (x : σ) :
    keysOf m ⊆ keysOf (groupStep key init merge m x) := by
  rw [keysOf_groupStep]
  by_cases h : key x ∈ keysOf m
  · rw [if_pos h]
    exact fun a ha => ha
  · rw [if_neg h]
    exact fun a ha => List.mem_append_left _ ha

theorem keys_mono_groupFold {σ κ V : Type} [DecidableEq κ] (key : σ → κ) (init : σ → V)
    (merge : V → σ → V) (l : List σ) :
    ∀ m, keysOf m ⊆ keysOf (l.foldl (groupStep key init merge) m) := by
  induction l with
  | nil => intro m; exact fun a ha => ha
  | cons x rest ih =>
    intro m
    exact fun a ha =>
      ih (groupStep key init merge m x) (keys_mono_groupStep key init merge m x ha)

theorem keys_nodup_groupFold {σ κ V : Type} [DecidableEq κ] (key : σ → κ) (init : σ → V)
    (merge : V → σ → V) (l : List σ) :
    ∀ m, (keysOf m).Nodup → (keysOf (l.foldl (groupStep key init merge) m)).Nodup := by
  induction l with
  | nil => intro m hm; exact hm
  | cons x rest ih =>
    intro m hm
    refine ih (groupStep key init merge m x) ?_
    rw [keysOf_groupStep]
    by_cases h : key x ∈ keysOf m
    · rwa [if_pos h]
    · rw [if_neg h]
      simp [List.nodup_append, hm, h]

theorem key_mem_groupFold {σ κ V : Type} [DecidableEq κ] (key : σ → κ) (init : σ → V)
    (merge : V → σ → V) (l : List σ) :
    ∀ m, ∀ x ∈ l, key x ∈ keysOf (l.foldl (groupStep key init merge) m) := by
  induction l with
  | nil => intro m x hx; exact absurd hx (List.not_mem_nil x)
  | cons y rest ih =>
    intro m x hx
    rw [List.foldl_cons]
    rcases List.mem_cons.mp hx with hxy | hxr
    · subst hxy
      refine keys_mono_groupFold key init merge rest _ ?_
      rw [keysOf_groupStep]
      by_cases h : key x ∈ keysOf m
      · rwa [if_pos h]
      · rw [if_neg h]
        exact List.mem_append_right _ (List.mem_singleton_self _)
    · exact ih _ x hxr

theorem keysOf_groupFold_dedup {σ κ V : Type} [DecidableEq κ] (key : σ → κ)
    (init : σ → V) (merge : V → σ → V) :
    ∀ (l : List σ) (m : List (κ × V)),
      keysOf (l.foldl (groupStep key init merge) m)
        = keysOf m ++ dedupFirst ((l.map key).filter (fun k => decide (k ∉ keysOf m))) := by
  intro l
  induction l with
  | nil => intro m; simp [dedupFirst]
  | cons x rest ih =>
    intro m
    rw [List.foldl_cons, ih]
    by_cases h : key x ∈ keysOf m
    · have hk : keysOf (groupStep key init merge m x) = keysOf m := by
        rw [keysOf_groupStep, if_pos h]
      rw [hk]
      congr 1
      rw [List.map_cons, List.filter_cons]
      simp [h]
    · have hk : keysOf (groupStep key init merge m x) = keysOf m ++ [key x] := by
        rw [keysOf_groupStep, if_neg h]
      rw [hk, List.append_assoc]
      congr 1
      rw [List.map_cons, List.filter_cons]
      have hpx : decide (key x ∉ keysOf m) = true := by simp [h]
      rw [hpx, if_pos rfl, dedupFirst]
      show key x :: dedupFirst ((rest.map key).filter
          (fun k => decide (k ∉ keysOf m ++ [key x])))
        = key x :: dedupFirst
            (((rest.map key).filter (fun k => decide (k ∉ keysOf m))).filter
              (fun y => decide (y ≠ key x)))
      congr 1
      rw [List.filter_filter]
      apply congrArg
      refine List.filter_congr ?_
      intro a _
      by_cases h1 : a ∈ keysOf m <;> by_cases h2 : a = key x <;>
        simp [h1, h2, keysOf, List.mem_append]

/-! ### Sortedness and stability of the final sort -/

theorem filter_orderedInsert_rev (r : ℚ) (a : ProductSold) (l : List ProductSold) :
    (List.orderedInsert revGE a l).filter (fun p => decide (p.revenue = r))
      = if a.revenue = r
        then a :: l.filter (fun p => decide (p.revenue = r))
        else l.filter (fun p => decide (p.revenue = r)) := by
  induction l with
  | nil =>
    by_cases ha : a.revenue = r <;> simp [List.orderedInsert, List.filter_cons, ha]
  | cons b tl ih =>
    by_cases hab : revGE a b
    · by_cases ha : a.revenue = r <;>
        simp [List.orderedInsert, if_pos hab, List.filter_cons, ha]
    · have hba : a.revenue < b.revenue := lt_of_not_le hab
      by_cases ha : a.revenue = r
      · have hb : ¬(b.revenue = r) := by
          intro hbr
          rw [hbr, ha] at hba
          exact lt_irrefl r hba
        simp [List.orderedInsert, if_neg hab, List.filter_cons, ha, hb, ih]
      · by_cases hb : b.revenue = r <;>
          simp [List.orderedInsert, if_neg hab, List.filter_cons, ha, hb, ih]

theorem filter_insertionSort_rev (r : ℚ) (l : List ProductSold) :
    (List.insertionSort revGE l).filter (fun p => decide (p.revenue = r))
      = l.filter (fun p => decide (p.revenue = r)) := by
  induction l with
  | nil => rfl
  | cons a tl ih =>
    rw [List.insertionSort, filter_orderedInsert_rev, ih]
    by_cases ha : a.revenue = r <;> simp [List.filter_cons, ha]

/-- C4: the product summaries come out sorted descending by revenue, and among
summaries of equal revenue the order is the order in which their merge keys
were first encountered (the insertion order of the product map). -/
theorem products_sorted_stable (s : List Sale) (r : ℚ) :
    (productsSold s).Sorted revGE
    ∧ (productsSold s).filter (fun p => decide (p.revenue = r))
        = ((prodMap s).map Prod.snd).filter (fun p => decide (p.revenue = r))
    ∧ keysOf (prodMap s) = dedupFirst ((allItems s).map productKey) := by
  refine ⟨List.sorted_insertionSort revGE _, filter_insertionSort_rev r _, ?_⟩
  rw [prodMap_eq_foldl_allItems]
  have h := keysOf_groupFold_dedup productKey initProduct mergeProduct (allItems s) []
  simpa [prodStep, keysOf, List.filter_true] using h

/-- C9: empty input yields empty outputs for both aggregators. -/
theorem empty_input_empty_output :
    productsSold [] = [] ∧ customerPurchases [] = [] :=
  ⟨rfl, rfl⟩

/-! ### Missing numeric fields behave as zero -/

theorem namesOf_fill (s : Sale) : namesOf (fillSale s) = namesOf s := by
  simp [namesOf, fillSale, itemsOf, fillItem, List.map_map, Function.comp]

theorem custStep_fill (m : List (String × CustomerPurchase)) (x : Sale) :
    custStep m (fillSale x) = custStep m x := by
  have hkey : custKey (fillSale x) = custKey x := rfl
  have hinit : initCustomer (fillSale x) = initCustomer x := by
    unfold initCustomer
    rw [namesOf_fill]
    exact rfl
  have hmerge : ∀ c, mergeCustomer c (fillSale x) = mergeCustomer c x := by
    intro c
    unfold mergeCustomer
    rw [namesOf_fill]
    exact rfl
  unfold custStep groupStep
  rw [hkey]
  cases mapGet m (custKey x) with
  | some ex => simp [hmerge ex]
  | none => simp [hinit]

theorem prodStep_fill (m : List (Option String × ProductSold)) (it : SaleItem) :
    prodStep m (fillItem it) = prodStep m it := by
  have hkey : productKey (fillItem it) = productKey it := rfl
  have hinit : initProduct (fillItem it) = initProduct it := rfl
  have hmerge : ∀ p, mergeProduct p (fillItem it) = mergeProduct p it := fun _ => rfl
  unfold prodStep groupStep
  rw [hkey]
  cases mapGet m (productKey it) with
  | some ex => simp [hmerge ex]
  | none => simp [hinit]

theorem allItems_fill (s : List Sale) :
    allItems (s.map fillSale) = (allItems s).map fillItem := by
  induction s with
  | nil => rfl
  | cons x rest ih => simp [allItems, ih, itemsOf, fillSale]

theorem foldl_prodStep_fill (l : List SaleItem) :
    ∀ m, (l.map fillItem).foldl prodStep m = l.foldl prodStep m := by
  induction l with
  | nil => intro m; rfl
  | cons it rest ih => intro m; simp [List.foldl_cons, prodStep_fill, ih]

theorem foldl_custStep_fill (l : List Sale) :
    ∀ m, (l.map fillSale).foldl custStep m = l.foldl custStep m := by
  induction l with
  | nil => intro m; rfl
  | cons x rest ih => intro m; simp [List.foldl_cons, custStep_fill, ih]

/-- C8: the aggregators are total and treat missing numeric fields (and a
missing `items` array) as zero (resp. empty): zero-filling every possibly
missing numeric field changes nothing in either output. -/
theorem defaults_as_zero (s : List Sale) :
    productsSold (s.map fillSale) = productsSold s
    ∧ customerPurchases (s.map fillSale) = customerPurchases s := by
  constructor
  · unfold productsSold
    rw [prodMap_eq_foldl_allItems, prodMap_eq_foldl_allItems, allItems_fill,
      foldl_prodStep_fill]
  · unfold customerPurchases custMap
    rw [foldl_custStep_fill]

/-! ### Per-key characterisations of the two maps -/

theorem mapGet_prodMap (s : List Sale) (k : Option String) :
    mapGet (prodMap s) k =
      groupOutcome initProduct mergeProduct none
        ((allItems s).filter (fun it => decide (productKey it = k))) := by
  rw [prodMap_eq_foldl_allItems,
    (rfl : prodStep = groupStep productKey initProduct mergeProduct)]
  simpa [mapGet] using mapGet_groupFold productKey initProduct mergeProduct (allItems s) [] k

theorem mapGet_custMap (s : List Sale) (k : String) :
    mapGet (custMap s) k =
      groupOutcome initCustomer mergeCustomer none
        (s.filter (fun r => decide (custKey r = k))) := by
  unfold custMap
  rw [(rfl : custStep = groupStep custKey initCustomer mergeCustomer)]
  simpa [mapGet] using mapGet_groupFold custKey initCustomer mergeCustomer s [] k

theorem find?_eq_filter_head {α : Type} (p : α → Bool) :
    ∀ l : List α, l.find? p = (l.filter p).head? := by
  intro l
  induction l with
  | nil => rfl
  | cons a tl ih =>
    cases h : p a
    · rw [List.find?_cons_of_neg _ (by simp [h]), List.filter_cons_of_neg (by simp [h])]
      exact ih
    · rw [List.find?_cons_of_pos _ (by simp [h]), List.filter_cons_of_pos (by simp [h])]
      rfl

/-- C6: `customerPurchases` keys each record by its customer name (absent or
empty name keyed as "Walk-in Customer"); the summary stored under a key counts
exactly the records with that key (+1 each) and sums their `total_amount`
values defaulted to 0. -/
theorem customers_keyed_accumulate (s : List Sale) (k : String) :
    (∀ r : Sale, custKey r = match r.customer_name with
        | none => "Walk-in Customer"
        | some n => if n = "" then "Walk-in Customer" else n)
    ∧ ((mapGet (custMap s) k).map fun c => (c.orders, c.totalSpent))
        = (if s.filter (fun t => decide (custKey t = k)) = []
           then none
           else some ((s.filter (fun t => decide (custKey t = k))).length,
              sumBy (fun t => jsNum t.total_amount)
                (s.filter (fun t => decide (custKey t = k))))) := by
  constructor
  · intro r
    unfold custKey jsOrStr
    cases hn : r.customer_name with
    | none => rfl
    | some n => by_cases h : n = "" <;> simp [h]
  · rw [mapGet_custMap]
    cases hocc : s.filter (fun t => decide (custKey t = k)) with
    | nil => simp [groupOutcome]
    | cons r0 rest =>
      rw [if_neg (by simp : ¬(r0 :: rest : List Sale) = [])]
      simp only [groupOutcome, Option.map_some', Option.some.injEq]
      rw [foldl_mergeCustomer_orders, foldl_mergeCustomer_totalSpent]
      simp [initCustomer, sumBy_cons, List.length_cons, Prod.mk.injEq]
      omega

/-- C10: descriptive fields are first-occurrence-wins: the name, sku and
category of a product summary (resp. the name, phone and type of a customer
summary) are those of the first line item (resp. first record) encountered
with that merge key, with the documented defaults for missing fields; merging
further items or records leaves them unchanged. -/
theorem descriptive_first_occurrence (s : List Sale) (k : Option String) (ck : String) :
    ((mapGet (prodMap s) k).map fun p => (p.name, p.sku, p.category))
      = (((allItems s).find? fun it => decide (productKey it = k)).map fun i =>
          (jsOrStr i.product_name "Unknown Product", jsOrStr i.product_sku "-",
            jsOrStr i.category "Uncategorized"))
    ∧ ((mapGet (custMap s) ck).map fun c => (c.name, c.phone, c.type))
      = ((s.find? fun r => decide (custKey r = ck)).map fun r =>
          (custKey r, jsOrStr r.customer_phone "-", jsOrStr r.customer_type "Individual")) := by
  constructor
  · rw [mapGet_prodMap, find?_eq_filter_head]
    cases hocc : (allItems s).filter (fun it => decide (productKey it = k)) with
    | nil => simp [groupOutcome]
    | cons i rest =>
      simp only [groupOutcome, Option.map_some', List.head?_cons]
      obtain ⟨h1, h2, h3⟩ := foldl_mergeProduct_descriptive rest (initProduct i)
      rw [h1, h2, h3]
      rfl
  · rw [mapGet_custMap, find?_eq_filter_head]
    cases hocc : s.filter (fun r => decide (custKey r = ck)) with
    | nil => simp [groupOutcome]
    | cons r0 rest =>
      simp only [groupOutcome, Option.map_some', List.head?_cons]
      obtain ⟨h1, h2, h3⟩ := foldl_mergeCustomer_descriptive rest (initCustomer r0)
      rw [h1, h2, h3]
      rfl

/-- C2 (amended): after all merging, `avgPrice = revenue / quantity` holds for
every merge key encountered at least twice; for a key encountered exactly
once, `avgPrice` is instead the single item's `unit_price || 0` (which need
not equal `revenue / quantity`). -/
theorem avgPrice_cumulative (s : List Sale) (k : Option String) (p : ProductSold)
    (i : SaleItem) (rest : List SaleItem)
    (hp : mapGet (prodMap s) k = some p)
    (hf : (allItems s).filter (fun it => decide (productKey it = k)) = i :: rest) :
    (rest ≠ [] → p.avgPrice = p.revenue / p.quantity)
    ∧ (rest = [] → p.avgPrice = jsNum i.unit_price) := by
  rw [mapGet_prodMap, hf] at hp
  simp only [groupOutcome, Option.some.injEq] at hp
  subst hp
  constructor
  · intro hne
    exact foldl_mergeProduct_avgPrice rest hne (initProduct i)
  · intro he
    subst he
    rfl

/-! ### Keys of the product map -/

theorem productKey_none_name (it : SaleItem) (h : productKey it = none) :
    it.product_name = none := by
  unfold productKey jsOrKey at h
  by_cases hs : strTruthy it.product_sku
  · rw [if_pos hs] at h
    cases hsku : it.product_sku with
    | none => simp [strTruthy, hsku] at hs
    | some v =>
      rw [hsku] at h
      exact Option.noConfusion h
  · rwa [if_neg hs] at h

/-- C3 (amended): the map key is the raw JS value `product_sku || product_name`
(`productKey`), not the display label: each distinct raw key owns exactly one
summary (keys are unique and every item's key is present), and the summary
stored under the absent key — items with neither a truthy sku nor any name —
carries the display name "Unknown Product".  An item literally named
"Unknown Product" has key `some "Unknown Product"` and is therefore *not*
merged with items that have no sku and no name. -/
theorem merge_key_amended (s : List Sale) :
    (keysOf (prodMap s)).Nodup
    ∧ (∀ it, it ∈ allItems s → productKey it ∈ keysOf (prodMap s))
    ∧ (∀ p, mapGet (prodMap s) none = some p → p.name = "Unknown Product") := by
  refine ⟨?_, ?_, ?_⟩
  · rw [prodMap_eq_foldl_allItems, (rfl : prodStep = groupStep productKey initProduct mergeProduct)]
    exact keys_nodup_groupFold productKey initProduct mergeProduct (allItems s) [] (by simp [keysOf])
  · intro it hit
    rw [prodMap_eq_foldl_allItems, (rfl : prodStep = groupStep productKey initProduct mergeProduct)]
    exact key_mem_groupFold productKey initProduct mergeProduct (allItems s) [] it hit
  · intro p hp
    rw [mapGet_prodMap] at hp
    cases hocc : (allItems s).filter (fun it => decide (productKey it = none)) with
    | nil => rw [hocc] at hp; exact Option.noConfusion hp
    | cons i rest =>
      rw [hocc] at hp
      simp only [groupOutcome, Option.some.injEq] at hp
      subst hp
      have hkey : productKey i = none := by
        have := List.mem_filter.mp (hocc ▸ List.mem_cons_self i rest)
        simpa using this.2
      obtain ⟨h1, _, _⟩ := foldl_mergeProduct_descriptive rest (initProduct i)
      rw [h1]
      show jsOrStr i.product_name "Unknown Product" = "Unknown Product"
      rw [productKey_none_name i hkey]
      rfl

/-! ### Permutation invariance of per-key totals -/

theorem prodTotals_char (s : List Sale) (k : Option String) :
    ((mapGet (prodMap s) k).map fun p => (p.quantity, p.revenue))
      = (if (allItems s).filter (fun it => decide (productKey it = k)) = []
         then none
         else some
           (sumBy (fun it => jsNum it.quantity)
              ((allItems s).filter (fun it => decide (productKey it = k))),
            sumBy (fun it => jsNum it.total_price)
              ((allItems s).filter (fun it => decide (productKey it = k))))) := by
  rw [mapGet_prodMap]
  cases hocc : (allItems s).filter (fun it => decide (productKey it = k)) with
  | nil => simp [groupOutcome]
  | cons i rest =>
    rw [if_neg (by simp : ¬(i :: rest : List SaleItem) = [])]
    simp only [groupOutcome, Option.map_some', Option.some.injEq]
    rw [foldl_mergeProduct_quantity, foldl_mergeProduct_revenue]
    simp [initProduct, sumBy_cons]

theorem custTotals_char (s : List Sale) (k : String) :
    ((mapGet (custMap s) k).map fun c => (c.orders, c.totalSpent, c.products.toFinset))
      = (if s.filter (fun r => decide (custKey r = k)) = []
         then none
         else some
           ((s.filter (fun r => decide (custKey r = k))).length,
            sumBy (fun r => jsNum r.total_amount) (s.filter (fun r => decide (custKey r = k))),
            namesSet (s.filter (fun r => decide (custKey r = k))))) := by
  rw [mapGet_custMap]
  cases hocc : s.filter (fun r => decide (custKey r = k)) with
  | nil => simp [groupOutcome]
  | cons r0 rest =>
    rw [if_neg (by simp : ¬(r0 :: rest : List Sale) = [])]
    simp only [groupOutcome, Option.map_some', Option.some.injEq]
    rw [foldl_mergeCustomer_orders, foldl_mergeCustomer_totalSpent,
      foldl_mergeCustomer_products]
    simp [initCustomer, sumBy_cons, namesSet, Prod.mk.injEq]
    omega

theorem allItems_perm {s s' : List Sale} (h : s.Perm s') :
    (allItems s).Perm (allItems s') := by
  induction h with
  | nil => exact List.Perm.refl _
  | cons x _ ih => simpa [allItems] using ih.append_left (itemsOf x)
  | swap x y l =>
    show itemsOf y ++ (itemsOf x ++ allItems l) |>.Perm (itemsOf x ++ (itemsOf y ++ allItems l))
    rw [← List.append_assoc, ← List.append_assoc]
    exact List.Perm.append_right _ (List.perm_append_comm)
  | trans _ _ ih₁ ih₂ => exact ih₁.trans ih₂

theorem namesSet_perm {l l' : List Sale} (h : l.Perm l') : namesSet l = namesSet l' := by
  induction h with
  | nil => rfl
  | cons x _ ih => simp [namesSet, ih]
  | swap x y l =>
    show (namesOf y).toFinset ∪ ((namesOf x).toFinset ∪ namesSet l)
      = (namesOf x).toFinset ∪ ((namesOf y).toFinset ∪ namesSet l)
    rw [← Finset.union_assoc, Finset.union_comm ((namesOf y).toFinset),
      Finset.union_assoc]
  | trans _ _ ih₁ ih₂ => exact ih₁.trans ih₂

theorem sumBy_perm {α β : Type} [AddCommMonoid β] (f : α → β) {l l' : List α}
    (h : l.Perm l') : sumBy f l = sumBy f l' := by
  unfold sumBy
  exact (h.map f).sum_eq

/-- C5 (amended): permuting the input preserves, for every merge key, the
existence of its summary and all accumulated totals — quantity and revenue of
a product summary; order count, total spent and the *set* of product names of
a customer summary.  (The full multiset of summaries is not preserved: the
descriptive first-occurrence fields and the internal order of the `products`
array depend on the input order.) -/
theorem permutation_totals (s s' : List Sale) (h : s.Perm s') (k : Option String)
    (ck : String) :
    ((mapGet (prodMap s) k).map fun p => (p.quantity, p.revenue))
      = ((mapGet (prodMap s') k).map fun p => (p.quantity, p.revenue))
    ∧ ((mapGet (custMap s) ck).map fun c => (c.orders, c.totalSpent, c.products.toFinset))
      = ((mapGet (custMap s') ck).map fun c => (c.orders, c.totalSpent, c.products.toFinset)) := by
  constructor
  · rw [prodTotals_char, prodTotals_char]
    have hperm := (allItems_perm h).filter (fun it => decide (productKey it = k))
    by_cases he : (allItems s).filter (fun it => decide (productKey it = k)) = []
    · rw [he] at hperm
      rw [if_pos he, if_pos (List.Perm.eq_nil hperm.symm)]
    · have he' : ¬(allItems s').filter (fun it => decide (productKey it = k)) = [] := by
        intro hnil
        rw [hnil] at hperm
        exact he (List.Perm.eq_nil hperm)
      rw [if_neg he, if_neg he', sumBy_perm _ hperm, sumBy_perm _ hperm]
  · rw [custTotals_char, custTotals_char]
    have hperm := h.filter (fun r => decide (custKey r = ck))
    by_cases he : s.filter (fun r => decide (custKey r = ck)) = []
    · rw [he] at hperm
      rw [if_pos he, if_pos (List.Perm.eq_nil hperm.symm)]
    · have he' : ¬s'.filter (fun r => decide (custKey r = ck)) = [] := by
        intro hnil
        rw [hnil] at hperm
        exact he (List.Perm.eq_nil hperm)
      rw [if_neg he, if_neg he', sumBy_perm _ hperm, namesSet_perm hperm,
        hperm.length_eq]

/-! ### Concrete inputs for counterexamples and witnesses -/

/-- C2 (counterexample): for a merge key encountered exactly once, `avgPrice`
keeps the item's `unit_price` (here 5), not `revenue / quantity` (here
100 / 2 = 50). -/
theorem avgPrice_claim_false :
    ¬ ∀ p ∈ productsSold [saleA], p.avgPrice = p.revenue / p.quantity := by
  intro hall
  have h1 : productsSold [saleA]
      = [{ name := "Alpha", sku := "A1", category := "Uncategorized",
           quantity := 2, revenue := 100, avgPrice := 5 }] := by
    norm_num +decide [productsSold, prodMap, prodStep, groupStep, mapGet, mapSet, itemsOf,
      productKey, jsOrKey, strTruthy, initProduct, jsOrStr, jsNum, saleA, itemA, mkItem,
      mkSale, List.insertionSort, List.orderedInsert]
  rw [h1] at hall
  have h2 := hall _ (List.mem_singleton_self _)
  norm_num at h2

theorem avgPrice_cumulative_witness :
    prodAB.avgPrice = prodAB.revenue / prodAB.quantity :=
  (avgPrice_cumulative [saleAB] (some "A1") prodAB itemA [itemB]
    (by norm_num +decide [prodMap, prodStep, groupStep, mapGet, mapSet, itemsOf,
      productKey, jsOrKey, strTruthy, initProduct, mergeProduct, jsOrStr, jsNum,
      saleAB, itemA, itemB, mkItem, mkSale])
    (by norm_num +decide [allItems, itemsOf, productKey, jsOrKey, strTruthy,
      saleAB, itemA, itemB, mkItem, mkSale, List.filter])).1
    (by simp)

/-- C3 (counterexample): an item with neither sku nor name and an item
literally named "Unknown Product" have the same spec-side merge key, yet the
code produces two separate summaries for them (it keys the first by the raw
absent value, not by the label). -/
theorem mergeKey_claim_false :
    specMergeKey itemNoId = specMergeKey itemUP
    ∧ (productsSold [saleC3]).length = 2 := by
  constructor
  · norm_num +decide [specMergeKey, strTruthy, itemNoId, itemUP, mkItem]
  · have hlen : (productsSold [saleC3]).length
        = ((prodMap [saleC3]).map Prod.snd).length :=
      (List.perm_insertionSort revGE _).length_eq
    rw [hlen]
    norm_num +decide [prodMap, prodStep, groupStep, mapGet, mapSet, itemsOf,
      productKey, jsOrKey, strTruthy, initProduct, saleC3, itemNoId, itemUP, mkItem, mkSale]

theorem merge_key_amended_witness :
    productKey itemNoId ∈ keysOf (prodMap [saleNoId])
    ∧ prodNoId.name = "Unknown Product" :=
  ⟨(merge_key_amended [saleNoId]).2.1 itemNoId
      (by simp [allItems, itemsOf, saleNoId, mkSale]),
   (merge_key_amended [saleNoId]).2.2 _
      (by norm_num +decide [prodMap, prodStep, groupStep, mapGet, mapSet, itemsOf,
        productKey, jsOrKey, strTruthy, initProduct, jsOrStr, jsNum, saleNoId,
        itemNoId, mkItem, mkSale])⟩

/-- C5 (counterexample): permuting the input does not preserve the multiset of
summaries: the first-occurrence-wins descriptive fields change with the input
order (the product summary keeps the first item's name, the customer summary
the first record's phone). -/
theorem permutation_claim_false :
    ([saleX, saleY].Perm [saleY, saleX]
      ∧ (productsSold [saleX, saleY] : Multiset ProductSold)
          ≠ (productsSold [saleY, saleX] : Multiset ProductSold))
    ∧ ([saleP1, saleP2].Perm [saleP2, saleP1]
      ∧ (customerPurchases [saleP1, saleP2] : Multiset CustomerPurchase)
          ≠ (customerPurchases [saleP2, saleP1] : Multiset CustomerPurchase)) := by
  have hx : productsSold [saleX, saleY]
      = [{ name := "X", sku := "K", category := "Uncategorized", quantity := 2,
           revenue := 20, avgPrice := 10 }] := by
    norm_num +decide [productsSold, prodMap, prodStep, groupStep, mapGet, mapSet,
      itemsOf, productKey, jsOrKey, strTruthy, initProduct, mergeProduct, jsOrStr,
      jsNum, saleX, saleY, itemX, itemY, mkItem, mkSale, List.insertionSort,
      List.orderedInsert]
  have hy : productsSold [saleY, saleX]
      = [{ name := "Y", sku := "K", category := "Uncategorized", quantity := 2,
           revenue := 20, avgPrice := 10 }] := by
    norm_num +decide [productsSold, prodMap, prodStep, groupStep, mapGet, mapSet,
      itemsOf, productKey, jsOrKey, strTruthy, initProduct, mergeProduct, jsOrStr,
      jsNum, saleX, saleY, itemX, itemY, mkItem, mkSale, List.insertionSort,
      List.orderedInsert]
  have hp1 : customerPurchases [saleP1, saleP2]
      = [{ name := "Bea", phone := "111", type := "Individual", orders := 2,
           totalSpent := 15, products := [] }] := by
    norm_num +decide [customerPurchases, custMap, custStep, groupStep, mapGet, mapSet,
      initCustomer, mergeCustomer, custKey, jsOrStr, jsNum, namesOf, itemsOf,
      dedupFirst, saleP1, saleP2, mkSale, List.insertionSort, List.orderedInsert]
  have hp2 : customerPurchases [saleP2, saleP1]
      = [{ name := "Bea", phone := "222", type := "Individual", orders := 2,
           totalSpent := 15, products := [] }] := by
    norm_num +decide [customerPurchases, custMap, custStep, groupStep, mapGet, mapSet,
      initCustomer, mergeCustomer, custKey, jsOrStr, jsNum, namesOf, itemsOf,
      dedupFirst, saleP1, saleP2, mkSale, List.insertionSort, List.orderedInsert]
  refine ⟨⟨List.Perm.swap saleY saleX [], ?_⟩, ⟨List.Perm.swap saleP2 saleP1 [], ?_⟩⟩
  · intro hc
    rw [hx, hy, Multiset.coe_eq_coe, List.perm_singleton] at hc
    have := List.head_eq_of_cons_eq hc
    simp at this
  · intro hc
    rw [hp1, hp2, Multiset.coe_eq_coe, List.perm_singleton] at hc
    have := List.head_eq_of_cons_eq hc
    simp at this

theorem permutation_totals_witness :
    ((mapGet (prodMap [saleX, saleY]) (some "K")).map fun p => (p.quantity, p.revenue))
      = ((mapGet (prodMap [saleY, saleX]) (some "K")).map fun p => (p.quantity, p.revenue))
    ∧ ((mapGet (custMap [saleX, saleY]) "Ali").map
          fun c => (c.orders, c.totalSpent, c.products.toFinset))
      = ((mapGet (custMap [saleY, saleX]) "Ali").map
          fun c => (c.orders, c.totalSpent, c.products.toFinset)) :=
  permutation_totals [saleX, saleY] [saleY, saleX]
    (List.Perm.swap saleY saleX []) (some "K") "Ali"

/-- C7 (code bug at a concrete input): a customer summary built from a single
record whose line items repeat a product name keeps the duplicate — the
`else` branch stores the raw name list without deduplication. -/
theorem products_not_dedup_single_record :
    (customerPurchases [saleRep]).map (fun c => c.products)
      = [[some "P", some "P"]] := by
  norm_num +decide [customerPurchases, custMap, custStep, groupStep, mapGet, mapSet,
    initCustomer, custKey, jsOrStr, jsNum, namesOf, itemsOf, saleRep, itemP, mkItem,
    mkSale, List.insertionSort, List.orderedInsert]
